import Mathlib

/-!
Shallow embedding of `neovim_prompt/key.py`: the key-expression resolver
(`_resolve`, `_resolve_from_special_keys`), the `SPECIAL_KEYS` table and the
caching factory `Key.parse`.  Bytes are lists of naturals (each byte a value
below 256), text is `String`, and the editor gateway is an explicit record.
The Python functions can recurse through the leader variable, so the two
resolvers take an explicit fuel argument; running out of fuel is a
distinguished error that the real (unbounded) recursion never produces on
terminating runs.
-/

/-- A byte sequence: Python `bytes`, one natural number below 256 per byte. -/
abbrev Bytes := List Nat

/-- Python `KeyCode = Union[int, bytes]`. -/
inductive KeyCode where
  | int (n : Nat)
  | bytes (b : Bytes)
deriving DecidableEq, Repr

/-- Python `KeyExpr = Union[KeyCode, str]`, plus `other` for a runtime value of
none of the three accepted kinds (the case `_resolve` rejects). -/
inductive KeyExpr where
  | int (n : Nat)
  | bytes (b : Bytes)
  | str (s : String)
  | other
deriving DecidableEq, Repr

/-- Failures resolution can produce: the `AttributeError` for an invalid
expression kind, the `KeyError` propagated from `nvim.vars` when a leader
variable is unset, the `TypeError` raised by `bytes.join` when a modifier tail
resolves to an integer code, and exhaustion of the explicit fuel. -/
inductive ResolveError where
  | invalidExpressionKind
  | missingVariable (name : String)
  | joinTypeError
  | outOfFuel
deriving DecidableEq, Repr

deriving instance DecidableEq for Except

/-- Modelled from the spec: the EditorGateway (§6) — `encodeText`,
`decodeBytes`, `codeToChar` and `getVariable` — together with the util helpers
`ensure_bytes`, `ensure_str` and `int2chr` imported by `key.py`, whose module
`util.py` is not under src/.  Per §6 decoding and encoding are total
conversions for the editor's configured encoding, and `codeToChar` decodes an
integer code as a single character. -/
structure Nvim where
  encode : String → Bytes
  decode : Bytes → String
  codeToChar : Nat → String
  vars : String → Option String

/-- Encode a string bytewise (character code points), the ASCII fragment of the
editor's encoding; used to spell byte literals such as `b"ku"`. -/
def bstr (s : String) : Bytes := s.data.map Char.toNat

/-- Decode a byte sequence bytewise to text, the inverse of `bstr` on the
ASCII fragment. -/
def stdDecode (b : Bytes) : String := String.mk (b.map Char.ofNat)

/-- ASCII-compatible concrete gateway used for concrete evaluations: bytewise
encoding/decoding, parameterised by the editor variables. -/
def stdNvim (vars : String → Option String) : Nvim where
  encode := bstr
  decode := stdDecode
  codeToChar n := stdDecode [n]
  vars := vars

/-- Python `bytes.upper`: uppercase the ASCII letters, leave every other byte
unchanged. -/
def upperBytes (b : Bytes) : Bytes :=
  b.map fun c => if 97 ≤ c ∧ c ≤ 122 then c - 32 else c

/-- `CTRL_KEY = b'\x80\xfc\x04'`. -/
def CTRL_KEY : Bytes := [0x80, 0xfc, 0x04]

/-- `META_KEY = b'\x80\xfc\x08'`. -/
def META_KEY : Bytes := [0x80, 0xfc, 0x08]

/-- A `0x80`-marker special-key code `b'\x80' + s` from the table. -/
def mk80 (s : String) : KeyCode := .bytes (0x80 :: bstr s)

/-- The final contents of the Python `SPECIAL_KEYS` dictionary: the
`curses.ascii.controlnames` entries, the named-key entries, and the aliases —
with `BS` carrying its final (alias, `BACKSPACE`) value, as the alias update
overwrites the control-name entry. -/
def SPECIAL_KEYS : List (String × KeyCode) := [
  ("NUL", .int 0), ("SOH", .int 1), ("STX", .int 2), ("ETX", .int 3),
  ("EOT", .int 4), ("ENQ", .int 5), ("ACK", .int 6), ("BEL", .int 7),
  ("BS", mk80 "kb"), ("HT", .int 9), ("LF", .int 10), ("VT", .int 11),
  ("FF", .int 12), ("CR", .int 13), ("SO", .int 14), ("SI", .int 15),
  ("DLE", .int 16), ("DC1", .int 17), ("DC2", .int 18), ("DC3", .int 19),
  ("DC4", .int 20), ("NAK", .int 21), ("SYN", .int 22), ("ETB", .int 23),
  ("CAN", .int 24), ("EM", .int 25), ("SUB", .int 26), ("ESC", .int 27),
  ("FS", .int 28), ("GS", .int 29), ("RS", .int 30), ("US", .int 31),
  ("SP", .int 32),
  ("BSLASH", .int 92), ("LT", .int 60),
  ("UP", mk80 "ku"), ("DOWN", mk80 "kd"), ("LEFT", mk80 "kl"),
  ("RIGHT", mk80 "kr"),
  ("F1", mk80 "k1"), ("F2", mk80 "k2"), ("F3", mk80 "k3"), ("F4", mk80 "k4"),
  ("F5", mk80 "k5"), ("F6", mk80 "k6"), ("F7", mk80 "k7"), ("F8", mk80 "k8"),
  ("F9", mk80 "k9"), ("F10", mk80 "k;"),
  ("F11", mk80 "F1"), ("F12", mk80 "F2"), ("F13", mk80 "F3"),
  ("F14", mk80 "F4"), ("F15", mk80 "F5"), ("F16", mk80 "F6"),
  ("F17", mk80 "F7"), ("F18", mk80 "F8"), ("F19", mk80 "F9"),
  ("F20", mk80 "FA"), ("F21", mk80 "FB"), ("F22", mk80 "FC"),
  ("F23", mk80 "FD"), ("F24", mk80 "FE"),
  ("HELP", mk80 "%1"), ("BACKSPACE", mk80 "kb"), ("INSERT", mk80 "kI"),
  ("DELETE", mk80 "kD"), ("HOME", mk80 "kh"), ("END", mk80 "@7"),
  ("PAGEUP", mk80 "kP"), ("PAGEDOWN", mk80 "kN"),
  ("NOP", .int 0), ("RETURN", .int 13), ("ENTER", .int 13),
  ("SPACE", .int 32), ("INS", mk80 "kI"), ("DEL", mk80 "kD")]

/-- Dictionary lookup (`inner_upper_str in SPECIAL_KEYS` followed by
`SPECIAL_KEYS[inner_upper_str]`). -/
def lookupSK : List (String × KeyCode) → String → Option KeyCode
  | [], _ => none
  | (k, v) :: rest, s => if k = s then some v else lookupSK rest s

/-- The character set of `b'@ABCDEFGHIKLMNOPQRSTUVWXYZ[\\]^_?'` exactly as it
appears on line 161 of `key.py` (note: no `J`). -/
def ctrlableSet : Bytes := bstr "@ABCDEFGHIKLMNOPQRSTUVWXYZ[\\]^_?"

/-- `curses.ascii.ctrl` on an integer byte: `c & 0x1f`. -/
def asciiCtrl (c : Nat) : Nat := c &&& 0x1f

/-- The tail of `_resolve`'s bracket branch applied to the result of
`_resolve_from_special_keys`: `if code != inner: return code` followed by the
fallthrough `return expr` (errors propagate). -/
def bracketResult (b : Bytes) :
    Except ResolveError KeyCode → Except ResolveError KeyCode
  | .error err => .error err
  | .ok code =>
    if code = .bytes ((b.drop 1).dropLast) then .ok (.bytes b) else .ok code

/-- `b''.join([marker, tail])` applied to the recursive result: the join
requires the tail to be bytes, and raises `TypeError` on an integer (the
`cast` in the source is a type annotation only). -/
def joinBytes (marker : Bytes) :
    Except ResolveError KeyCode → Except ResolveError KeyCode
  | .error err => .error err
  | .ok (.int _) => .error .joinTypeError
  | .ok (.bytes rb) => .ok (.bytes (marker ++ rb))

mutual

/-- `_resolve(nvim, expr)` of `key.py`, with fuel for the recursion through
the leader variable and through string re-encoding. -/
def resolve : Nvim → Nat → KeyExpr → Except ResolveError KeyCode
  | _, 0, _ => .error .outOfFuel
  | nvim, fuel + 1, e =>
    match e with
    | .int n => .ok (.int n)
    | .str s => resolve nvim fuel (.bytes (nvim.encode s))
    | .other => .error .invalidExpressionKind
    | .bytes b =>
      if b.length = 1 then .ok (.int (b.headD 0))
      else if b.head? = some 0x80 then .ok (.bytes b)
      else if b.head? = some 60 ∨ b.getLast? = some 62 then
        bracketResult b (resolveFromSpecialKeys nvim fuel ((b.drop 1).dropLast))
      else .ok (.bytes b)

/-- `_resolve_from_special_keys(nvim, inner)` of `key.py`. -/
def resolveFromSpecialKeys : Nvim → Nat → Bytes → Except ResolveError KeyCode
  | _, 0, _ => .error .outOfFuel
  | nvim, fuel + 1, inner =>
    match lookupSK SPECIAL_KEYS (nvim.decode (upperBytes inner)) with
    | some code => .ok code
    | none =>
      if (upperBytes inner).take 2 = [67, 45] then
        if inner.length = 3 ∧ (upperBytes inner).getLastD 0 ∈ ctrlableSet then
          .ok (.int (asciiCtrl (inner.getLastD 0)))
        else
          joinBytes CTRL_KEY (resolveFromSpecialKeys nvim fuel (inner.drop 2))
      else if (upperBytes inner).take 2 = [77, 45] ∨
          (upperBytes inner).take 2 = [65, 45] then
        joinBytes META_KEY (resolveFromSpecialKeys nvim fuel (inner.drop 2))
      else if upperBytes inner = bstr "LEADER" then
        match nvim.vars "mapleader" with
        | none => .error (.missingVariable "mapleader")
        | some leader => resolve nvim fuel (.bytes (nvim.encode leader))
      else if upperBytes inner = bstr "LOCALLEADER" then
        match nvim.vars "maplocalleader" with
        | none => .error (.missingVariable "maplocalleader")
        | some leader => resolve nvim fuel (.bytes (nvim.encode leader))
      else .ok (.bytes inner)

end

/-- The `Key` named tuple: a resolved code and its printable representation. -/
structure Key where
  code : KeyCode
  char : String
deriving DecidableEq, Repr

/-- The class-level cache `Key.__cached`, keyed by the original expression. -/
abbrev Cache := List (KeyExpr × Key)

/-- Dictionary lookup on the cache (`expr not in cls.__cached`). -/
def lookupC : Cache → KeyExpr → Option Key
  | [], _ => none
  | (e, k) :: rest, e' => if e = e' then some k else lookupC rest e'

/-- The `char` derivation inside `Key.parse`: `int2chr` for an integer code,
decoded text for bytes not starting with the marker, empty otherwise. -/
def charOf (nvim : Nvim) : KeyCode → String
  | .int n => nvim.codeToChar n
  | .bytes b => if b.head? = some 0x80 then "" else nvim.decode b

/-- `Key.parse(nvim, expr)` of `key.py`: return the cached instance when the
expression is cached, otherwise resolve, derive `char`, store and return.  The
cache is threaded explicitly; the returned cache is the updated
`Key.__cached`. -/
def Key.parse (nvim : Nvim) (fuel : Nat) (cache : Cache) (expr : KeyExpr) :
    Except ResolveError (Key × Cache) :=
  match lookupC cache expr with
  | some k => .ok (k, cache)
  | none =>
    match resolve nvim fuel expr with
    | .error err => .error err
    | .ok code =>
      let k : Key := ⟨code, charOf nvim code⟩
      .ok (k, (expr, k) :: cache)

/-- Gateway with no editor variables set, for concrete evaluations. -/
def nvim0 : Nvim := stdNvim fun _ => none



lemma resolve_succ_int (nvim : Nvim) (fuel n : Nat) :
    resolve nvim (fuel + 1) (.int n) = .ok (.int n) := rfl

lemma resolve_succ_str (nvim : Nvim) (fuel : Nat) (s : String) :
    resolve nvim (fuel + 1) (.str s) = resolve nvim fuel (.bytes (nvim.encode s)) := rfl

lemma resolve_succ_other (nvim : Nvim) (fuel : Nat) :
    resolve nvim (fuel + 1) .other = .error .invalidExpressionKind := rfl

lemma resolve_zero (nvim : Nvim) (e : KeyExpr) :
    resolve nvim 0 e = .error .outOfFuel := rfl

lemma rfsk_zero (nvim : Nvim) (inner : Bytes) :
    resolveFromSpecialKeys nvim 0 inner = .error .outOfFuel := rfl

lemma resolve_succ_bytes (nvim : Nvim) (fuel : Nat) (b : Bytes) :
    resolve nvim (fuel + 1) (.bytes b) =
      if b.length = 1 then .ok (.int (b.headD 0))
      else if b.head? = some 0x80 then .ok (.bytes b)
      else if b.head? = some 60 ∨ b.getLast? = some 62 then
        bracketResult b (resolveFromSpecialKeys nvim fuel ((b.drop 1).dropLast))
      else .ok (.bytes b) := rfl

lemma rfsk_succ (nvim : Nvim) (fuel : Nat) (inner : Bytes) :
    resolveFromSpecialKeys nvim (fuel + 1) inner =
      (match lookupSK SPECIAL_KEYS (nvim.decode (upperBytes inner)) with
      | some code => .ok code
      | none =>
        if (upperBytes inner).take 2 = [67, 45] then
          if inner.length = 3 ∧ (upperBytes inner).getLastD 0 ∈ ctrlableSet then
            .ok (.int (asciiCtrl (inner.getLastD 0)))
          else
            joinBytes CTRL_KEY (resolveFromSpecialKeys nvim fuel (inner.drop 2))
        else if (upperBytes inner).take 2 = [77, 45] ∨
            (upperBytes inner).take 2 = [65, 45] then
          joinBytes META_KEY (resolveFromSpecialKeys nvim fuel (inner.drop 2))
        else if upperBytes inner = bstr "LEADER" then
          match nvim.vars "mapleader" with
          | none => .error (.missingVariable "mapleader")
          | some leader => resolve nvim fuel (.bytes (nvim.encode leader))
        else if upperBytes inner = bstr "LOCALLEADER" then
          match nvim.vars "maplocalleader" with
          | none => .error (.missingVariable "maplocalleader")
          | some leader => resolve nvim fuel (.bytes (nvim.encode leader))
        else .ok (.bytes inner)) := rfl

lemma bracketResult_error (b : Bytes) (err : ResolveError) :
    bracketResult b (.error err) = .error err := rfl

lemma bracketResult_ok (b : Bytes) (code : KeyCode) :
    bracketResult b (.ok code) =
      if code = .bytes ((b.drop 1).dropLast) then .ok (.bytes b)
      else .ok code := rfl

lemma joinBytes_error (marker : Bytes) (err : ResolveError) :
    joinBytes marker (.error err) = .error err := rfl

lemma joinBytes_int (marker : Bytes) (n : Nat) :
    joinBytes marker (.ok (.int n)) = .error .joinTypeError := rfl

lemma joinBytes_bytes (marker rb : Bytes) :
    joinBytes marker (.ok (.bytes rb)) = .ok (.bytes (marker ++ rb)) := rfl

lemma lookupC_cons_self (e : KeyExpr) (k : Key) (c : Cache) :
    lookupC ((e, k) :: c) e = some k := by
  simp [lookupC]

/-- C1: For every key expression e and any two calls parse(e1) and parse(e2)
with value-equal expressions e1 = e2, the returned Key is the same cached
instance: the cache entry for an expression, once stored, is never recomputed
or overwritten, and every later call with an equal expression returns exactly
that stored Key.  Formally: after a successful `Key.parse`, the returned Key
is exactly the one stored in the returned cache, and any later call on that
cache with an equal expression — at any fuel, so without recomputation —
returns that very stored Key and leaves the cache untouched. -/
theorem parse_returns_cached_instance (nvim : Nvim) (fuel1 fuel2 : Nat)
    (cache cache' : Cache) (expr : KeyExpr) (k : Key)
    (h : Key.parse nvim fuel1 cache expr = .ok (k, cache')) :
    lookupC cache' expr = some k ∧
      Key.parse nvim fuel2 cache' expr = .ok (k, cache') := by
  unfold Key.parse at h
  cases hl : lookupC cache expr with
  | some k0 =>
    rw [hl] at h
    obtain ⟨rfl, rfl⟩ : k0 = k ∧ cache = cache' := by
      simpa using h
    exact ⟨hl, by unfold Key.parse; rw [hl]⟩
  | none =>
    rw [hl] at h
    cases hr : resolve nvim fuel1 expr with
    | error err => rw [hr] at h; simp at h
    | ok code =>
      rw [hr] at h
      obtain ⟨rfl, rfl⟩ :
          (⟨code, charOf nvim code⟩ : Key) = k ∧
            (expr, (⟨code, charOf nvim code⟩ : Key)) :: cache = cache' := by
        simpa using h
      refine ⟨lookupC_cons_self .., ?_⟩
      unfold Key.parse
      rw [lookupC_cons_self]

/-- Closed instance of `parse_returns_cached_instance` at a concrete input. -/
theorem parse_returns_cached_instance_witness :
    lookupC [(KeyExpr.int 97, (⟨.int 97, "a"⟩ : Key))] (KeyExpr.int 97) =
        some (⟨.int 97, "a"⟩ : Key) ∧
      Key.parse nvim0 3 [(KeyExpr.int 97, (⟨.int 97, "a"⟩ : Key))] (KeyExpr.int 97) =
        .ok ((⟨.int 97, "a"⟩ : Key), [(KeyExpr.int 97, (⟨.int 97, "a"⟩ : Key))]) :=
  parse_returns_cached_instance nvim0 5 3 [] _ (KeyExpr.int 97) _ (by decide)

lemma mono_aux : ∀ fuel : Nat,
    (∀ (nvim : Nvim) (fuel' : Nat) (e : KeyExpr) (c : KeyCode), fuel ≤ fuel' →
      resolve nvim fuel e = .ok c → resolve nvim fuel' e = .ok c) ∧
    (∀ (nvim : Nvim) (fuel' : Nat) (inner : Bytes) (c : KeyCode), fuel ≤ fuel' →
      resolveFromSpecialKeys nvim fuel inner = .ok c →
        resolveFromSpecialKeys nvim fuel' inner = .ok c) := by
  intro fuel
  induction fuel with
  | zero =>
    constructor
    · intro nvim fuel' e c _ h
      rw [resolve_zero] at h
      exact absurd h (by simp)
    · intro nvim fuel' inner c _ h
      rw [rfsk_zero] at h
      exact absurd h (by simp)
  | succ n ih =>
    obtain ⟨ihR, ihS⟩ := ih
    constructor
    · intro nvim fuel' e c hle h
      obtain ⟨m, rfl⟩ : ∃ m, fuel' = m + 1 := ⟨fuel' - 1, by omega⟩
      have hnm : n ≤ m := by omega
      cases e with
      | int k => rw [resolve_succ_int] at h ⊢; exact h
      | other => rw [resolve_succ_other] at h; exact absurd h (by simp)
      | str s =>
        rw [resolve_succ_str] at h ⊢
        exact ihR nvim m _ c hnm h
      | bytes b =>
        rw [resolve_succ_bytes] at h ⊢
        by_cases h1 : b.length = 1
        · rw [if_pos h1] at h ⊢; exact h
        · rw [if_neg h1] at h ⊢
          by_cases h2 : b.head? = some 0x80
          · rw [if_pos h2] at h ⊢; exact h
          · rw [if_neg h2] at h ⊢
            by_cases h3 : b.head? = some 60 ∨ b.getLast? = some 62
            · rw [if_pos h3] at h ⊢
              cases hs : resolveFromSpecialKeys nvim n ((b.drop 1).dropLast) with
              | error err =>
                rw [hs, bracketResult_error] at h
                exact absurd h (by simp)
              | ok code =>
                rw [hs] at h
                rw [ihS nvim m _ code hnm hs]
                exact h
            · rw [if_neg h3] at h ⊢; exact h
    · intro nvim fuel' inner c hle h
      obtain ⟨m, rfl⟩ : ∃ m, fuel' = m + 1 := ⟨fuel' - 1, by omega⟩
      have hnm : n ≤ m := by omega
      rw [rfsk_succ] at h ⊢
      cases hlk : lookupSK SPECIAL_KEYS (nvim.decode (upperBytes inner)) with
      | some code => rw [hlk] at h; exact h
      | none =>
        rw [hlk] at h
        dsimp only at h ⊢
        by_cases hc : (upperBytes inner).take 2 = [67, 45]
        · rw [if_pos hc] at h ⊢
          by_cases hsc : inner.length = 3 ∧ (upperBytes inner).getLastD 0 ∈ ctrlableSet
          · rw [if_pos hsc] at h ⊢; exact h
          · rw [if_neg hsc] at h ⊢
            cases hs : resolveFromSpecialKeys nvim n (inner.drop 2) with
            | error err =>
              rw [hs, joinBytes_error] at h
              exact absurd h (by simp)
            | ok code =>
              rw [hs] at h
              rw [ihS nvim m _ code hnm hs]
              exact h
        · rw [if_neg hc] at h ⊢
          by_cases hm2 : (upperBytes inner).take 2 = [77, 45] ∨
              (upperBytes inner).take 2 = [65, 45]
          · rw [if_pos hm2] at h ⊢
            cases hs : resolveFromSpecialKeys nvim n (inner.drop 2) with
            | error err =>
              rw [hs, joinBytes_error] at h
              exact absurd h (by simp)
            | ok code =>
              rw [hs] at h
              rw [ihS nvim m _ code hnm hs]
              exact h
          · rw [if_neg hm2] at h ⊢
            by_cases hld : upperBytes inner = bstr "LEADER"
            · rw [if_pos hld] at h ⊢
              cases hv : nvim.vars "mapleader" with
              | none => rw [hv] at h; exact absurd h (by simp)
              | some leader => rw [hv] at h; exact ihR nvim m _ c hnm h
            · rw [if_neg hld] at h ⊢
              by_cases hlld : upperBytes inner = bstr "LOCALLEADER"
              · rw [if_pos hlld] at h ⊢
                cases hv : nvim.vars "maplocalleader" with
                | none => rw [hv] at h; exact absurd h (by simp)
                | some leader => rw [hv] at h; exact ihR nvim m _ c hnm h
              · rw [if_neg hlld] at h ⊢; exact h

lemma resolve_mono (nvim : Nvim) (fuel fuel' : Nat) (e : KeyExpr) (c : KeyCode)
    (hle : fuel ≤ fuel') (h : resolve nvim fuel e = .ok c) :
    resolve nvim fuel' e = .ok c :=
  (mono_aux fuel).1 nvim fuel' e c hle h

/-- Re-inject a resolved code as a key expression (Python passes the same
value back, an `int` or `bytes`). -/
def exprOf : KeyCode → KeyExpr
  | .int n => .int n
  | .bytes b => .bytes b

/-- A code that resolution returns unchanged on sight: an integer, or a byte
sequence of length other than one starting with the `0x80` marker. -/
def goodCodeB : KeyCode → Bool
  | .int _ => true
  | .bytes b => b.head? == some 0x80 && b.length != 1

lemma lookupSK_mem :
    ∀ (t : List (String × KeyCode)) (s : String) (c : KeyCode),
      lookupSK t s = some c → ∃ k, (k, c) ∈ t := by
  intro t
  induction t with
  | nil => intro s c h; simp [lookupSK] at h
  | cons p rest ih =>
    intro s c h
    obtain ⟨k, v⟩ := p
    rw [lookupSK] at h
    by_cases hk : k = s
    · rw [if_pos hk] at h
      obtain rfl : v = c := by simpa using h
      exact ⟨k, List.mem_cons_self _ _⟩
    · rw [if_neg hk] at h
      obtain ⟨k', hk'⟩ := ih s c h
      exact ⟨k', List.mem_cons_of_mem _ hk'⟩

lemma SPECIAL_KEYS_good : ∀ p ∈ SPECIAL_KEYS, goodCodeB p.2 = true := by decide

lemma lookupSK_goodCode (s : String) (c : KeyCode)
    (h : lookupSK SPECIAL_KEYS s = some c) : goodCodeB c = true := by
  obtain ⟨k, hk⟩ := lookupSK_mem _ s c h
  exact SPECIAL_KEYS_good (k, c) hk

lemma marker_fixed (nvim : Nvim) (fuel : Nat) (b : Bytes)
    (hh : b.head? = some 0x80) (hl : b.length ≠ 1) :
    resolve nvim (fuel + 1) (.bytes b) = .ok (.bytes b) := by
  rw [resolve_succ_bytes, if_neg hl, if_pos hh]

lemma goodCode_fixed (nvim : Nvim) (fuel : Nat) (c : KeyCode)
    (hg : goodCodeB c = true) : resolve nvim (fuel + 1) (exprOf c) = .ok c := by
  cases c with
  | int n => exact resolve_succ_int ..
  | bytes b =>
    simp only [goodCodeB, Bool.and_eq_true, beq_iff_eq, bne_iff_ne, ne_eq] at hg
    exact marker_fixed nvim fuel b hg.1 hg.2

lemma fix_aux : ∀ fuel : Nat,
    (∀ (nvim : Nvim) (e : KeyExpr) (c : KeyCode),
      resolve nvim fuel e = .ok c → resolve nvim fuel (exprOf c) = .ok c) ∧
    (∀ (nvim : Nvim) (inner : Bytes) (c : KeyCode),
      resolveFromSpecialKeys nvim fuel inner = .ok c →
        c = .bytes inner ∨ resolve nvim fuel (exprOf c) = .ok c) := by
  intro fuel
  induction fuel with
  | zero =>
    constructor
    · intro nvim e c h
      rw [resolve_zero] at h
      exact absurd h (by simp)
    · intro nvim inner c h
      rw [rfsk_zero] at h
      exact absurd h (by simp)
  | succ n ih =>
    obtain ⟨ihR, ihS⟩ := ih
    constructor
    · intro nvim e c h
      cases e with
      | int k =>
        rw [resolve_succ_int] at h
        obtain rfl : KeyCode.int k = c := by simpa using h
        exact resolve_succ_int ..
      | other =>
        rw [resolve_succ_other] at h
        exact absurd h (by simp)
      | str s =>
        rw [resolve_succ_str] at h
        exact resolve_mono nvim n (n + 1) _ c (by omega) (ihR nvim _ c h)
      | bytes b =>
        rw [resolve_succ_bytes] at h
        by_cases h1 : b.length = 1
        · rw [if_pos h1] at h
          obtain rfl : KeyCode.int (b.headD 0) = c := by simpa using h
          exact resolve_succ_int ..
        · rw [if_neg h1] at h
          by_cases h2 : b.head? = some 0x80
          · rw [if_pos h2] at h
            obtain rfl : KeyCode.bytes b = c := by simpa using h
            exact marker_fixed nvim n b h2 h1
          · rw [if_neg h2] at h
            by_cases h3 : b.head? = some 60 ∨ b.getLast? = some 62
            · rw [if_pos h3] at h
              cases hs : resolveFromSpecialKeys nvim n ((b.drop 1).dropLast) with
              | error err =>
                rw [hs, bracketResult_error] at h
                exact absurd h (by simp)
              | ok code =>
                rw [hs, bracketResult_ok] at h
                by_cases he : code = .bytes ((b.drop 1).dropLast)
                · rw [if_pos he] at h
                  obtain rfl : KeyCode.bytes b = c := by simpa using h
                  show resolve nvim (n + 1) (.bytes b) = .ok (.bytes b)
                  rw [resolve_succ_bytes, if_neg h1, if_neg h2, if_pos h3, hs,
                    bracketResult_ok, if_pos he]
                · rw [if_neg he] at h
                  obtain rfl : code = c := by simpa using h
                  rcases ihS nvim _ code hs with hbi | hfix
                  · exact absurd hbi he
                  · exact resolve_mono nvim n (n + 1) _ code (by omega) hfix
            · rw [if_neg h3] at h
              obtain rfl : KeyCode.bytes b = c := by simpa using h
              show resolve nvim (n + 1) (.bytes b) = .ok (.bytes b)
              rw [resolve_succ_bytes, if_neg h1, if_neg h2, if_neg h3]
    · intro nvim inner c h
      rw [rfsk_succ] at h
      cases hlk : lookupSK SPECIAL_KEYS (nvim.decode (upperBytes inner)) with
      | some code =>
        rw [hlk] at h
        obtain rfl : code = c := by simpa using h
        right
        exact goodCode_fixed nvim n code (lookupSK_goodCode _ code hlk)
      | none =>
        rw [hlk] at h
        dsimp only at h
        by_cases hc : (upperBytes inner).take 2 = [67, 45]
        · rw [if_pos hc] at h
          by_cases hsc : inner.length = 3 ∧ (upperBytes inner).getLastD 0 ∈ ctrlableSet
          · rw [if_pos hsc] at h
            obtain rfl : KeyCode.int (asciiCtrl (inner.getLastD 0)) = c := by
              simpa using h
            right
            exact resolve_succ_int ..
          · rw [if_neg hsc] at h
            cases hs : resolveFromSpecialKeys nvim n (inner.drop 2) with
            | error err =>
              rw [hs, joinBytes_error] at h
              exact absurd h (by simp)
            | ok code =>
              cases code with
              | int k =>
                rw [hs, joinBytes_int] at h
                exact absurd h (by simp)
              | bytes rb =>
                rw [hs, joinBytes_bytes] at h
                obtain rfl : KeyCode.bytes (CTRL_KEY ++ rb) = c := by simpa using h
                right
                refine marker_fixed nvim n _ ?_ ?_
                · simp [CTRL_KEY]
                · simp [CTRL_KEY]
        · rw [if_neg hc] at h
          by_cases hm2 : (upperBytes inner).take 2 = [77, 45] ∨
              (upperBytes inner).take 2 = [65, 45]
          · rw [if_pos hm2] at h
            cases hs : resolveFromSpecialKeys nvim n (inner.drop 2) with
            | error err =>
              rw [hs, joinBytes_error] at h
              exact absurd h (by simp)
            | ok code =>
              cases code with
              | int k =>
                rw [hs, joinBytes_int] at h
                exact absurd h (by simp)
              | bytes rb =>
                rw [hs, joinBytes_bytes] at h
                obtain rfl : KeyCode.bytes (META_KEY ++ rb) = c := by simpa using h
                right
                refine marker_fixed nvim n _ ?_ ?_
                · simp [META_KEY]
                · simp [META_KEY]
          · rw [if_neg hm2] at h
            by_cases hld : upperBytes inner = bstr "LEADER"
            · rw [if_pos hld] at h
              cases hv : nvim.vars "mapleader" with
              | none => rw [hv] at h; exact absurd h (by simp)
              | some leader =>
                rw [hv] at h
                right
                exact resolve_mono nvim n (n + 1) _ c (by omega) (ihR nvim _ c h)
            · rw [if_neg hld] at h
              by_cases hlld : upperBytes inner = bstr "LOCALLEADER"
              · rw [if_pos hlld] at h
                cases hv : nvim.vars "maplocalleader" with
                | none => rw [hv] at h; exact absurd h (by simp)
                | some leader =>
                  rw [hv] at h
                  right
                  exact resolve_mono nvim n (n + 1) _ c (by omega) (ihR nvim _ c h)
              · rw [if_neg hlld] at h
                obtain rfl : KeyCode.bytes inner = c := by simpa using h
                left
                rfl

/-- C9: Resolution is idempotent: for every key expression (with the editor
gateway held fixed), feeding the resolved code back into resolve returns it
unchanged — every successful output of resolve (an integer, a 0x80-prefixed
byte sequence, or a literal fallback byte sequence) is a fixed point of
resolve. -/
theorem resolve_idempotent (nvim : Nvim) (fuel : Nat) (e : KeyExpr)
    (c : KeyCode) (h : resolve nvim fuel e = .ok c) :
    resolve nvim fuel (exprOf c) = .ok c :=
  (fix_aux fuel).1 nvim e c h

/-- Closed instance of `resolve_idempotent`: the resolved code of
`"<Insert>"` resolves to itself. -/
theorem resolve_idempotent_witness :
    resolve nvim0 10 (exprOf (.bytes (0x80 :: bstr "kI"))) =
      .ok (.bytes (0x80 :: bstr "kI")) :=
  resolve_idempotent nvim0 10 (.str "<Insert>") (.bytes (0x80 :: bstr "kI"))
    (by decide)

/-- C4 counterexample: the one-byte sequence `b'\x80'` is not returned
unchanged — the single-byte rule converts it to the integer 128 before the
marker check is reached. -/
theorem marker_singleton_not_unchanged :
    resolve nvim0 5 (.bytes [0x80]) = .ok (.int 128) ∧
      KeyCode.int 128 ≠ KeyCode.bytes [0x80] := by
  constructor
  · decide
  · decide

/-- C4 as amended: every byte sequence of length at least two beginning with
the reserved marker byte 0x80 is returned unchanged by resolve; the one-byte
sequence consisting of 0x80 alone instead hits the earlier single-byte rule
and resolves to the integer 128. -/
theorem marker_prefixed_unchanged (nvim : Nvim) (fuel : Nat) (b : Bytes)
    (hh : b.head? = some 0x80) (hl : 2 ≤ b.length) :
    resolve nvim (fuel + 1) (.bytes b) = .ok (.bytes b) :=
  marker_fixed nvim fuel b hh (by omega)

/-- Closed instance of `marker_prefixed_unchanged` at `b'\x80kI'`. -/
theorem marker_prefixed_unchanged_witness :
    resolve nvim0 5 (.bytes (0x80 :: bstr "kI")) =
      .ok (.bytes (0x80 :: bstr "kI")) :=
  marker_prefixed_unchanged nvim0 4 (0x80 :: bstr "kI") (by decide) (by decide)

/-- C2 (code bug): the ctrl-able character set on line 161 of `key.py` omits
`J`, so `<C-J>` does not take the single-character control-code shortcut
(which would yield the integer 10) but falls through to marker composition,
returning the CTRL marker followed by the byte `J`. -/
theorem ctrl_j_not_shortcut :
    resolve nvim0 10 (.str "<C-J>") = .ok (.bytes (CTRL_KEY ++ [74])) ∧
      resolve nvim0 10 (.str "<C-J>") ≠ .ok (.int 10) ∧
      resolve nvim0 10 (.str "<C-a>") = .ok (.int 1) := by
  refine ⟨by decide, by decide, by decide⟩

lemma stdNvim_decode (v : String → Option String) : (stdNvim v).decode = stdDecode := rfl

lemma stdNvim_encode (v : String → Option String) : (stdNvim v).encode = bstr := rfl

lemma charOf_int (nvim : Nvim) (n : Nat) :
    charOf nvim (.int n) = nvim.codeToChar n := rfl

lemma charOf_bytes (nvim : Nvim) (b : Bytes) :
    charOf nvim (.bytes b) =
      if b.head? = some 0x80 then "" else nvim.decode b := rfl

/-- C5: For every key expression, the char field of the Key returned by parse
is derived exactly as: if the resolved code is an integer, char is that code
decoded as a single character in the editor's encoding; if the code is a byte
sequence not beginning with 0x80, char is the decoded text of those bytes; and
whenever the code begins with the 0x80 marker, char is the empty string. -/
theorem parse_char_derivation (nvim : Nvim) (fuel : Nat) (cache cache' : Cache)
    (expr : KeyExpr) (k : Key)
    (hc : lookupC cache expr = none)
    (h : Key.parse nvim fuel cache expr = .ok (k, cache')) :
    (∀ n, k.code = .int n → k.char = nvim.codeToChar n) ∧
    (∀ b, k.code = .bytes b → b.head? ≠ some 0x80 → k.char = nvim.decode b) ∧
    (∀ b, k.code = .bytes b → b.head? = some 0x80 → k.char = "") := by
  unfold Key.parse at h
  rw [hc] at h
  cases hr : resolve nvim fuel expr with
  | error err => rw [hr] at h; exact absurd h (by simp)
  | ok code =>
    rw [hr] at h
    obtain ⟨rfl, rfl⟩ :
        (⟨code, charOf nvim code⟩ : Key) = k ∧
          (expr, (⟨code, charOf nvim code⟩ : Key)) :: cache = cache' := by
      simpa using h
    refine ⟨?_, ?_, ?_⟩
    · intro n hn
      have hcode : code = .int n := hn
      subst hcode
      exact charOf_int ..
    · intro b hb hm
      have hcode : code = .bytes b := hb
      subst hcode
      show charOf nvim (.bytes b) = nvim.decode b
      rw [charOf_bytes, if_neg hm]
    · intro b hb hm
      have hcode : code = .bytes b := hb
      subst hcode
      show charOf nvim (.bytes b) = ""
      rw [charOf_bytes, if_pos hm]

/-- Closed instance of `parse_char_derivation`: parsing `"<Insert>"` yields a
marker-prefixed code and the empty printable representation. -/
theorem parse_char_derivation_witness :
    (⟨.bytes (0x80 :: bstr "kI"), ""⟩ : Key).char = "" :=
  (parse_char_derivation nvim0 10 []
        [(.str "<Insert>", (⟨.bytes (0x80 :: bstr "kI"), ""⟩ : Key))]
        (.str "<Insert>") (⟨.bytes (0x80 :: bstr "kI"), ""⟩ : Key)
        (by decide) (by decide)).2.2
    (0x80 :: bstr "kI") rfl (by decide)

lemma no_iek_aux : ∀ fuel : Nat,
    (∀ (nvim : Nvim) (b : Bytes),
      resolve nvim fuel (.bytes b) ≠ .error .invalidExpressionKind) ∧
    (∀ (nvim : Nvim) (inner : Bytes),
      resolveFromSpecialKeys nvim fuel inner ≠ .error .invalidExpressionKind) := by
  intro fuel
  induction fuel with
  | zero =>
    constructor
    · intro nvim b; rw [resolve_zero]; simp
    · intro nvim inner; rw [rfsk_zero]; simp
  | succ n ih =>
    obtain ⟨ihR, ihS⟩ := ih
    constructor
    · intro nvim b
      rw [resolve_succ_bytes]
      by_cases h1 : b.length = 1
      · rw [if_pos h1]; simp
      · rw [if_neg h1]
        by_cases h2 : b.head? = some 0x80
        · rw [if_pos h2]; simp
        · rw [if_neg h2]
          by_cases h3 : b.head? = some 60 ∨ b.getLast? = some 62
          · rw [if_pos h3]
            cases hs : resolveFromSpecialKeys nvim n ((b.drop 1).dropLast) with
            | error err =>
              rw [bracketResult_error]
              intro hcontra
              have herr : err = .invalidExpressionKind := by simpa using hcontra
              exact ihS nvim ((b.drop 1).dropLast) (by rw [hs, herr])
            | ok code =>
              rw [bracketResult_ok]
              by_cases he : code = .bytes ((b.drop 1).dropLast)
              · rw [if_pos he]; simp
              · rw [if_neg he]; simp
          · rw [if_neg h3]; simp
    · intro nvim inner
      rw [rfsk_succ]
      cases hlk : lookupSK SPECIAL_KEYS (nvim.decode (upperBytes inner)) with
      | some code => simp
      | none =>
        dsimp only
        by_cases hc : (upperBytes inner).take 2 = [67, 45]
        · rw [if_pos hc]
          by_cases hsc : inner.length = 3 ∧ (upperBytes inner).getLastD 0 ∈ ctrlableSet
          · rw [if_pos hsc]; simp
          · rw [if_neg hsc]
            cases hs : resolveFromSpecialKeys nvim n (inner.drop 2) with
            | error err =>
              rw [joinBytes_error]
              intro hcontra
              have herr : err = .invalidExpressionKind := by simpa using hcontra
              exact ihS nvim (inner.drop 2) (by rw [hs, herr])
            | ok code =>
              cases code with
              | int k => rw [joinBytes_int]; simp
              | bytes rb => rw [joinBytes_bytes]; simp
        · rw [if_neg hc]
          by_cases hm2 : (upperBytes inner).take 2 = [77, 45] ∨
              (upperBytes inner).take 2 = [65, 45]
          · rw [if_pos hm2]
            cases hs : resolveFromSpecialKeys nvim n (inner.drop 2) with
            | error err =>
              rw [joinBytes_error]
              intro hcontra
              have herr : err = .invalidExpressionKind := by simpa using hcontra
              exact ihS nvim (inner.drop 2) (by rw [hs, herr])
            | ok code =>
              cases code with
              | int k => rw [joinBytes_int]; simp
              | bytes rb => rw [joinBytes_bytes]; simp
          · rw [if_neg hm2]
            by_cases hld : upperBytes inner = bstr "LEADER"
            · rw [if_pos hld]
              cases hv : nvim.vars "mapleader" with
              | none => simp
              | some leader => exact ihR nvim (nvim.encode leader)
            · rw [if_neg hld]
              by_cases hlld : upperBytes inner = bstr "LOCALLEADER"
              · rw [if_pos hlld]
                cases hv : nvim.vars "maplocalleader" with
                | none => simp
                | some leader => exact ihR nvim (nvim.encode leader)
              · rw [if_neg hlld]; simp

/-- C6 counterexample: resolving the well-kinded text expression `"<C-Space>"`
fails with the byte-join type error — a failure other than
`InvalidExpressionKind` and other than the gateway's missing-variable
failure. -/
theorem join_type_error_on_ctrl_space :
    resolve nvim0 10 (.str "<C-Space>") = .error .joinTypeError ∧
      ResolveError.joinTypeError ≠ ResolveError.invalidExpressionKind ∧
      ResolveError.joinTypeError ≠ ResolveError.missingVariable "mapleader" := by
  refine ⟨by decide, by decide, by decide⟩

/-- C6 as amended: resolution fails with InvalidExpressionKind exactly when
the input expression is none of integer, byte sequence, or text; besides this
and the gateway's missing-leader-variable failure, a modifier notation whose
tail resolves to an integer code (such as `"<C-Space>"`) fails with the
byte-join type error. -/
theorem resolve_invalid_kind_iff_other (nvim : Nvim) (fuel : Nat)
    (expr : KeyExpr) :
    resolve nvim (fuel + 1) expr = .error .invalidExpressionKind ↔
      expr = .other := by
  constructor
  · intro h
    cases expr with
    | int n => rw [resolve_succ_int] at h; exact absurd h (by simp)
    | str s =>
      rw [resolve_succ_str] at h
      exact absurd h ((no_iek_aux fuel).1 nvim (nvim.encode s))
    | bytes b => exact absurd h ((no_iek_aux (fuel + 1)).1 nvim b)
    | other => rfl
  · rintro rfl
    exact resolve_succ_other ..

/-- C3 counterexample: with `mapleader` set to the text `"<Space>"`, resolving
`"<Leader>"` yields the integer 32 — the leader text is re-interpreted as
bracket notation by the top-level resolver, not returned as its literal
encoded bytes. -/
theorem leader_bracket_reinterpreted :
    resolve (stdNvim fun n => if n = "mapleader" then some "<Space>" else none)
        10 (.str "<Leader>") = .ok (.int 32) ∧
      resolve (stdNvim fun n => if n = "mapleader" then some "<Space>" else none)
        10 (.str "<Leader>") ≠ .ok (.bytes (bstr "<Space>")) := by
  refine ⟨by decide, by decide⟩

/-- C3 as amended: for an inner name equal (case-insensitively) to LEADER or
LOCALLEADER, the leader text fetched from the editor variable is encoded and
fed back through the top-level resolver, so it undergoes full resolution — a
single-byte leader becomes its integer ordinal and a bracketed leader is
subject to special-key-name resolution; only when no resolution rule applies
do the literal encoded bytes come back. -/
theorem leader_resolved_via_top_level (v : String → Option String)
    (fuel : Nat) (inner : Bytes) (s : String)
    (h : (upperBytes inner = bstr "LEADER" ∧ v "mapleader" = some s) ∨
      (upperBytes inner = bstr "LOCALLEADER" ∧ v "maplocalleader" = some s)) :
    resolveFromSpecialKeys (stdNvim v) (fuel + 1) inner =
      resolve (stdNvim v) fuel (.bytes ((stdNvim v).encode s)) := by
  rcases h with ⟨hup, hv⟩ | ⟨hup, hv⟩
  · rw [rfsk_succ, hup, stdNvim_decode]
    rw [(by decide : lookupSK SPECIAL_KEYS (stdDecode (bstr "LEADER")) = none)]
    dsimp only
    rw [if_neg (by decide), if_neg (by decide), if_pos rfl]
    show (match v "mapleader" with
      | none => Except.error (ResolveError.missingVariable "mapleader")
      | some leader =>
        resolve (stdNvim v) fuel (.bytes ((stdNvim v).encode leader))) = _
    rw [hv]
  · rw [rfsk_succ, hup, stdNvim_decode]
    rw [(by decide : lookupSK SPECIAL_KEYS (stdDecode (bstr "LOCALLEADER")) = none)]
    dsimp only
    rw [if_neg (by decide), if_neg (by decide), if_neg (by decide), if_pos rfl]
    show (match v "maplocalleader" with
      | none => Except.error (ResolveError.missingVariable "maplocalleader")
      | some leader =>
        resolve (stdNvim v) fuel (.bytes ((stdNvim v).encode leader))) = _
    rw [hv]

/-- Closed instance of `leader_resolved_via_top_level` with `mapleader` set to
`","`: the lookup result equals the top-level resolution of the encoded
leader, which is the ordinal 44. -/
theorem leader_resolved_via_top_level_witness :
    resolveFromSpecialKeys
        (stdNvim fun n => if n = "mapleader" then some "," else none) 6
        (bstr "leader") =
      resolve (stdNvim fun n => if n = "mapleader" then some "," else none) 5
        (.bytes ((stdNvim fun n => if n = "mapleader" then some "," else none).encode ",")) :=
  leader_resolved_via_top_level _ 5 (bstr "leader") ","
    (Or.inl ⟨by decide, by decide⟩)

/-- The fallthrough case of `_resolve_from_special_keys`: the (uppercased)
inner name is not in the table, has no modifier prefix, and is not a leader
name. -/
def unresolvedName (nvim : Nvim) (inner : Bytes) : Prop :=
  lookupSK SPECIAL_KEYS (nvim.decode (upperBytes inner)) = none ∧
  (upperBytes inner).take 2 ≠ [67, 45] ∧
  (upperBytes inner).take 2 ≠ [77, 45] ∧
  (upperBytes inner).take 2 ≠ [65, 45] ∧
  upperBytes inner ≠ bstr "LEADER" ∧
  upperBytes inner ≠ bstr "LOCALLEADER"

instance (nvim : Nvim) (inner : Bytes) : Decidable (unresolvedName nvim inner) := by
  unfold unresolvedName
  infer_instance

lemma rfsk_unresolved (nvim : Nvim) (fuel : Nat) (inner : Bytes)
    (h : unresolvedName nvim inner) :
    resolveFromSpecialKeys nvim (fuel + 1) inner = .ok (.bytes inner) := by
  obtain ⟨h1, h2, h3, h4, h5, h6⟩ := h
  rw [rfsk_succ, h1]
  dsimp only
  rw [if_neg h2, if_neg (not_or.mpr ⟨h3, h4⟩), if_neg h5, if_neg h6]

/-- C7: For every bracketed expression whose inner name is not a recognized
special key, modifier form, or leader (such as `"<Unknown>"`), parse returns a
Key whose code is the original, unmodified encoded byte sequence of the whole
expression (brackets included) and whose char is its decoded text; unknown
names never raise an error. -/
theorem unknown_name_literal_fallback (nvim : Nvim) (fuel : Nat)
    (cache : Cache) (s : String)
    (hb2 : 2 ≤ (nvim.encode s).length)
    (hb80 : (nvim.encode s).head? ≠ some 0x80)
    (hbr : (nvim.encode s).head? = some 60 ∨ (nvim.encode s).getLast? = some 62)
    (hun : unresolvedName nvim (((nvim.encode s).drop 1).dropLast))
    (hc : lookupC cache (.str s) = none) :
    Key.parse nvim (fuel + 1 + 1 + 1) cache (.str s) =
      .ok (⟨.bytes (nvim.encode s), nvim.decode (nvim.encode s)⟩,
        (.str s, ⟨.bytes (nvim.encode s), nvim.decode (nvim.encode s)⟩) ::
          cache) := by
  have hres : resolve nvim (fuel + 1 + 1 + 1) (.str s) =
      .ok (.bytes (nvim.encode s)) := by
    rw [resolve_succ_str, resolve_succ_bytes, if_neg (by omega), if_neg hb80,
      if_pos hbr, rfsk_unresolved nvim fuel _ hun, bracketResult_ok,
      if_pos rfl]
  unfold Key.parse
  rw [hc, hres]
  show Except.ok
      ((⟨.bytes (nvim.encode s), charOf nvim (.bytes (nvim.encode s))⟩ : Key),
        _) = _
  rw [charOf_bytes, if_neg hb80]

/-- Closed instance of `unknown_name_literal_fallback` at `"<Unknown>"`. -/
theorem unknown_name_literal_fallback_witness :
    Key.parse nvim0 6 [] (.str "<Unknown>") =
      .ok (⟨.bytes (nvim0.encode "<Unknown>"),
          nvim0.decode (nvim0.encode "<Unknown>")⟩,
        [(.str "<Unknown>", ⟨.bytes (nvim0.encode "<Unknown>"),
          nvim0.decode (nvim0.encode "<Unknown>")⟩)]) :=
  unknown_name_literal_fallback nvim0 3 [] "<Unknown>" (by decide) (by decide)
    (by decide) (by decide) (by decide)

lemma rfsk_hit (nvim : Nvim) (fuel : Nat) (inner : Bytes) (code : KeyCode)
    (h : lookupSK SPECIAL_KEYS (nvim.decode (upperBytes inner)) = some code) :
    resolveFromSpecialKeys nvim (fuel + 1) inner = .ok code := by
  rw [rfsk_succ, h]

lemma SPECIAL_KEYS_byte_values_no_rehit :
    ∀ p ∈ SPECIAL_KEYS, (match p.2 with
      | KeyCode.int _ => true
      | KeyCode.bytes vb =>
        (lookupSK SPECIAL_KEYS (stdDecode (upperBytes vb))).isNone) = true := by
  decide

lemma hit_ne_bytes_inner (inner : Bytes) (code : KeyCode)
    (hhit : lookupSK SPECIAL_KEYS (stdDecode (upperBytes inner)) = some code) :
    code ≠ .bytes inner := by
  intro he
  subst he
  obtain ⟨k, hk⟩ := lookupSK_mem _ _ _ hhit
  have hmiss := SPECIAL_KEYS_byte_values_no_rehit (k, .bytes inner) hk
  dsimp only at hmiss
  rw [Option.isNone_iff_eq_none] at hmiss
  rw [hmiss] at hhit
  exact absurd hhit (by simp)

/-- C8: Special-key-name lookup is case-insensitive: for every recognized
special-key name, any two bracketed expressions differing only in ASCII letter
case (such as `"<insert>"` and `"<INSERT>"`) resolve to the same code and
parse to value-equal Keys. -/
theorem special_key_case_insensitive (v : String → Option String) (fuel : Nat)
    (b1 b2 : Bytes) (code : KeyCode)
    (hcase : upperBytes b1 = upperBytes b2)
    (hhit : lookupSK SPECIAL_KEYS (stdDecode (upperBytes b1)) = some code) :
    ∃ k c1 c2,
      Key.parse (stdNvim v) (fuel + 1 + 1) []
          (.bytes (60 :: (b1 ++ [62]))) = .ok (k, c1) ∧
        Key.parse (stdNvim v) (fuel + 1 + 1) []
          (.bytes (60 :: (b2 ++ [62]))) = .ok (k, c2) ∧
        k.code = code := by
  have hinner1 : ((60 :: (b1 ++ [62])).drop 1).dropLast = b1 := by simp
  have hinner2 : ((60 :: (b2 ++ [62])).drop 1).dropLast = b2 := by simp
  have hhit2 : lookupSK SPECIAL_KEYS (stdDecode (upperBytes b2)) = some code := by
    rw [← hcase]; exact hhit
  have hne1 : code ≠ .bytes b1 := hit_ne_bytes_inner b1 code hhit
  have hne2 : code ≠ .bytes b2 := hit_ne_bytes_inner b2 code hhit2
  have hres1 : resolve (stdNvim v) (fuel + 1 + 1)
      (.bytes (60 :: (b1 ++ [62]))) = .ok code := by
    rw [resolve_succ_bytes, if_neg (by simp), if_neg (by simp),
      if_pos (Or.inl (by simp)), hinner1,
      rfsk_hit (stdNvim v) fuel b1 code (by rw [stdNvim_decode]; exact hhit),
      bracketResult_ok]
    rw [hinner1, if_neg hne1]
  have hres2 : resolve (stdNvim v) (fuel + 1 + 1)
      (.bytes (60 :: (b2 ++ [62]))) = .ok code := by
    rw [resolve_succ_bytes, if_neg (by simp), if_neg (by simp),
      if_pos (Or.inl (by simp)), hinner2,
      rfsk_hit (stdNvim v) fuel b2 code (by rw [stdNvim_decode]; exact hhit2),
      bracketResult_ok]
    rw [hinner2, if_neg hne2]
  refine ⟨⟨code, charOf (stdNvim v) code⟩,
    [(KeyExpr.bytes (60 :: (b1 ++ [62])), ⟨code, charOf (stdNvim v) code⟩)],
    [(KeyExpr.bytes (60 :: (b2 ++ [62])), ⟨code, charOf (stdNvim v) code⟩)],
    ?_, ?_, rfl⟩
  · unfold Key.parse
    rw [hres1]
    rfl
  · unfold Key.parse
    rw [hres2]
    rfl

/-- Closed instance of `special_key_case_insensitive` at `"<insert>"` and
`"<INSERT>"`. -/
theorem special_key_case_insensitive_witness :
    ∃ k c1 c2,
      Key.parse nvim0 5 [] (.bytes (60 :: (bstr "insert" ++ [62]))) =
          .ok (k, c1) ∧
        Key.parse nvim0 5 [] (.bytes (60 :: (bstr "INSERT" ++ [62]))) =
          .ok (k, c2) ∧
        k.code = .bytes (0x80 :: bstr "kI") :=
  special_key_case_insensitive (fun _ => none) 3 (bstr "insert")
    (bstr "INSERT") (.bytes (0x80 :: bstr "kI")) (by decide) (by decide)

/-- Formalisation of claim C10's described behaviour, for comparison with
`resolve`: unconditionally remove both the first and the last byte, attempt
the special-key-name lookup on the result, and use the outcome exactly as the
bracket branch does (return the looked-up code when it differs from the
stripped inner bytes, the original sequence otherwise). -/
def claimedStripResolve (nvim : Nvim) (fuel : Nat) (b : Bytes) :
    Except ResolveError KeyCode :=
  bracketResult b (resolveFromSpecialKeys nvim fuel ((b.drop 1).dropLast))

/-- C10 counterexample: the byte sequence `b'\x80LT>'` has length at least 2
and ends with `>`, yet resolve returns it unchanged — the marker rule fires
first, so the special-key-name lookup on the stripped sequence (which would
yield the code 60 for `LT`) is never attempted. -/
theorem strip_skipped_for_marker_bytes :
    2 ≤ ([0x80, 76, 84, 62] : Bytes).length ∧
      ([0x80, 76, 84, 62] : Bytes).getLast? = some 62 ∧
      resolve nvim0 2 (.bytes [0x80, 76, 84, 62]) =
        .ok (.bytes [0x80, 76, 84, 62]) ∧
      claimedStripResolve nvim0 1 [0x80, 76, 84, 62] = .ok (.int 60) ∧
      resolve nvim0 2 (.bytes [0x80, 76, 84, 62]) ≠
        claimedStripResolve nvim0 1 [0x80, 76, 84, 62] := by
  refine ⟨by decide, by decide, by decide, by decide, by decide⟩

/-- C10 as amended: for every byte sequence of length at least 2 that does not
begin with the 0x80 marker and that starts with `<` or ends with `>` (not
necessarily both), resolve behaves exactly as the unconditional strip-both-
ends lookup: the special-key-name lookup is attempted on the sequence with
both its first and its last byte removed — so a half-bracketed input such as
`b"aLT>"` has its first byte stripped even though it is not a `<`. -/
theorem strip_both_ends_unconditionally (nvim : Nvim) (fuel : Nat) (b : Bytes)
    (h2 : 2 ≤ b.length) (h80 : b.head? ≠ some 0x80)
    (hbr : b.head? = some 60 ∨ b.getLast? = some 62) :
    resolve nvim (fuel + 1) (.bytes b) = claimedStripResolve nvim fuel b := by
  rw [resolve_succ_bytes, if_neg (by omega), if_neg h80, if_pos hbr]
  rfl

/-- Closed instance of `strip_both_ends_unconditionally` at the half-bracketed
input `b"aLT>"`: the first byte `a` is stripped although it is not `<`, and
the lookup of `LT` is observable in the result, the ordinal 60. -/
theorem strip_both_ends_unconditionally_witness :
    resolve nvim0 2 (.bytes [97, 76, 84, 62]) =
        claimedStripResolve nvim0 1 [97, 76, 84, 62] ∧
      claimedStripResolve nvim0 1 [97, 76, 84, 62] = .ok (.int 60) :=
  ⟨strip_both_ends_unconditionally nvim0 1 [97, 76, 84, 62] (by decide)
      (by decide) (by decide),
    by decide⟩
